import Mathlib

/-!
Verification of the step-trace generators and player of the
`interactive-learner` visualizer repository.

Each visualizer component re-implements a textbook algorithm in a
step-recording form: a pure `generateSteps` function runs the algorithm over
the current input and appends an immutable snapshot (`StepState`) at every
semantically meaningful point.  A player holds `currentStepIndex` and
`isPlaying` and steps through the recorded trace.

This file shallowly embeds the trace generators, the transport handlers and
the input-validation handlers of the relevant components:

* `NGE`     - `Next-Greater-Element.tsx` (monotonic stack);
* `MaxProd` - the maximum-product-subarray component (`part_000`);
* `SubMins` - the sum-of-subarray-minimums component (`part_002`);
* `Ship`    - `Leetcode-1011-Capacity-To-Ship-Packages-Within-D-Days.tsx`;
* `Split`   - `Leetcode-410-Split-Array-Largest-Sum.tsx`;
* `LC1976`  - `LC1976-NoWayToArrive.tsx` (Dijkstra with path counting).

Purely presentational `explanation` strings (and the derived `id` counter of
`LC1976`) are omitted from the embedded step records; every other recorded
field is kept.  JavaScript numbers are modelled by `JSNum` (exact rationals
extended with the two infinities and NaN); all arithmetic appearing in the
sources stays exact in this fragment, so the model is faithful.  Mutable JS
stacks (`push`/`pop` at the array end) are modelled by Lean lists whose head
is the stack top; snapshots recorded into steps are reversed back into the
JS array order (bottom of the stack first).
-/

/-- Model of a JavaScript number as used by this code base: an exact integer
together with `Infinity`, `-Infinity` and `NaN`.  Every number this code
fragment stores, records or compares is an integer (doubles are exact on
them at these magnitudes); the single non-integer intermediate, the
`(high - low) / 2` inside the binary-search midpoint expression, is
embedded as the composite operation `midFloor` below. -/
inductive JSNum where
  | num (z : ℤ)
  | posInf
  | negInf
  | nan
deriving DecidableEq, Repr

namespace JSNum

/-- Embed an integer as a JavaScript number. -/
def ofInt (z : ℤ) : JSNum := num z

/-- JavaScript addition. -/
def add : JSNum → JSNum → JSNum
  | nan, _ => nan
  | _, nan => nan
  | posInf, negInf => nan
  | negInf, posInf => nan
  | posInf, _ => posInf
  | _, posInf => posInf
  | negInf, _ => negInf
  | _, negInf => negInf
  | num a, num b => num (a + b)

/-- JavaScript unary minus. -/
def neg : JSNum → JSNum
  | nan => nan
  | posInf => negInf
  | negInf => posInf
  | num a => num (-a)

/-- JavaScript subtraction. -/
def sub (a b : JSNum) : JSNum := add a (neg b)

/-- The midpoint expression `Math.floor(low + (high - low) / 2)` of the
binary-search generators, as one composite operation.  Case by case on the
IEEE semantics of the intermediate `low + (high - low) / 2`:
* finite `a`, `b`: the intermediate is the exact value `a + (b - a) / 2`
  (a half-integer), whose floor is the integer `a + ⌊(b - a) / 2⌋`,
  i.e. `a + (b - a).ediv 2`;
* finite `a`, `b = ±Infinity`: `±Infinity - a = ±Infinity`, halving keeps
  it, `a + ±Infinity = ±Infinity`, and `Math.floor` fixes infinities;
* `a = +Infinity` with `b` finite or `-Infinity`: `b - a = -Infinity`,
  halved `-Infinity`, and `Infinity + -Infinity = NaN`;
* `a = -Infinity` with `b` finite or `+Infinity`: symmetric, `NaN`;
* equal infinities: `b - a = NaN`, so `NaN`; any `NaN` operand: `NaN`. -/
def midFloor : JSNum → JSNum → JSNum
  | num a, num b => num (a + (b - a) / 2)
  | num _, posInf => posInf
  | num _, negInf => negInf
  | posInf, num _ => nan
  | negInf, num _ => nan
  | posInf, posInf => nan
  | negInf, negInf => nan
  | posInf, negInf => nan
  | negInf, posInf => nan
  | nan, _ => nan
  | _, nan => nan

/-- JavaScript `<=` (false on any `NaN` operand). -/
def le : JSNum → JSNum → Bool
  | nan, _ => false
  | _, nan => false
  | negInf, _ => true
  | _, posInf => true
  | posInf, _ => false
  | num _, negInf => false
  | num a, num b => decide (a ≤ b)

/-- JavaScript `<` (false on any `NaN` operand). -/
def lt : JSNum → JSNum → Bool
  | nan, _ => false
  | _, nan => false
  | _, negInf => false
  | negInf, _ => true
  | posInf, _ => false
  | num _, posInf => true
  | num a, num b => decide (a < b)

/-- JavaScript `%` on integers: the remainder takes the sign of the
dividend, which is `Int.tmod`; `x % 0` and nonfinite dividends/divisors
give `NaN`, and `x % ±Infinity = x` for finite `x`. -/
def mod : JSNum → JSNum → JSNum
  | num a, num b => if b = 0 then nan else num (a.tmod b)
  | num a, posInf => num a
  | num a, negInf => num a
  | _, _ => nan

/-- JavaScript's string rendering of a number, as produced by
`Array.prototype.join` (`String(n)`: decimal digits for integers, `"NaN"`,
`"Infinity"`, `"-Infinity"`). -/
def render : JSNum → String
  | num z => toString z
  | posInf => "Infinity"
  | negInf => "-Infinity"
  | nan => "NaN"

/-- JavaScript `Math.min` on two arguments (ignoring the `-0` distinction,
which integral data never exercises). -/
def minJ : JSNum → JSNum → JSNum
  | nan, _ => nan
  | _, nan => nan
  | a, b => if le a b then a else b

/-- JavaScript `Math.max` on two arguments. -/
def maxJ : JSNum → JSNum → JSNum
  | nan, _ => nan
  | _, nan => nan
  | a, b => if le a b then b else a

/-- `Math.min(...xs)`: fold of `Math.min` starting from `Infinity`. -/
def minList (xs : List JSNum) : JSNum := xs.foldl minJ posInf

/-- `Math.max(...xs)`: fold of `Math.max` starting from `-Infinity`. -/
def maxList (xs : List JSNum) : JSNum := xs.foldl maxJ negInf

/-- Sum via `reduce((a, b) => a + b, 0)`. -/
def sumList (xs : List JSNum) : JSNum := xs.foldl add (num 0)

end JSNum

/-- Decimal value of a digit string. -/
def natOfDigits (l : List Char) : ℕ :=
  l.foldl (fun a c => 10 * a + (c.toNat - 48)) 0

/-- JavaScript `Number(s)` on a trimmed token drawn from the character set
permitted by the components' input regexes (digits, space, hyphen): an
optional leading `-` followed by one or more digits parses to an integer;
everything else (empty token, stray `-`, interior space or hyphen) yields
`NaN`, modelled as `none`. -/
def jsNumber : List Char → Option ℤ
  | [] => none
  | '-' :: rest =>
    if rest ≠ [] ∧ rest.all Char.isDigit then some (-(natOfDigits rest : ℤ))
    else none
  | l => if l.all Char.isDigit then some (natOfDigits l : ℤ) else none

/-- JavaScript `s.split(",")` on the character list of `s` (note
`"".split(",")` is `[""]`). -/
def splitComma : List Char → List (List Char)
  | [] => [[]]
  | c :: rest =>
    let r := splitComma rest
    if c = ',' then [] :: r
    else
      match r with
      | [] => [[c]]
      | h :: t => (c :: h) :: t

/-- JavaScript `trim()`; the surrounding regex check means only spaces can
occur, so only spaces need stripping. -/
def trimSpaces (l : List Char) : List Char :=
  ((l.dropWhile (fun c => c = ' ')).reverse.dropWhile (fun c => c = ' ')).reverse

/-- The shared tokenization pipeline of the input handlers:
`val.split(',').map(s => s.trim()).filter(s => s !== '').map(Number)`. -/
def parseTokens (s : String) : List (Option ℤ) :=
  (((splitComma s.data).map trimSpaces).filter (fun t => t ≠ [])).map jsNumber

/-! ## `Next-Greater-Element.tsx` (component `NGE`)

The trace generator `generateSteps`, the transport handlers
(`handleNext`, `handlePrev`, `handleReset`, `togglePlay`) and the input
handler `handleArrChange`. -/

namespace NGE

/-- The `phase` tag of the component's `StepState`. -/
inductive Phase where
  | init | loop | pop | record | push | reverse | complete
deriving DecidableEq, Repr

/-- `StepState` of `Next-Greater-Element.tsx` (sans `explanation`). -/
structure Step where
  stack : List ℤ
  rawAns : List ℤ
  finalAns : List ℤ
  phase : Phase
  currentIndex : ℤ
  compareVal : Option ℤ := none
  activeIndices : List ℤ
  poppedVal : Option ℤ := none
  highlightResultIdx : Option ℤ := none
  codeLine : String
deriving DecidableEq, Repr

/-- The inner `while (stack.length > 0)` pop loop: compares `currentVal`
with the stack top, pops while `currentVal >= top`, breaks otherwise.
Returns the recorded steps and the remaining stack (head = top). -/
def popLoop (currentVal : ℤ) (i : ℤ) (ansList : List ℤ) :
    List ℤ → List Step × List ℤ
  | [] => ([], [])
  | topVal :: rest =>
    let checkStep : Step :=
      { stack := (topVal :: rest).reverse, rawAns := ansList, finalAns := [],
        phase := .pop, currentIndex := i, compareVal := some topVal,
        activeIndices := [i], codeLine := "check-pop" }
    if topVal ≤ currentVal then
      let popStep : Step :=
        { stack := rest.reverse, rawAns := ansList, finalAns := [],
          phase := .pop, currentIndex := i, poppedVal := some topVal,
          activeIndices := [i], codeLine := "do-pop" }
      let res := popLoop currentVal i ansList rest
      (checkStep :: popStep :: res.1, res.2)
    else
      let stopStep : Step :=
        { stack := (topVal :: rest).reverse, rawAns := ansList, finalAns := [],
          phase := .pop, currentIndex := i, compareVal := some topVal,
          activeIndices := [i], codeLine := "check-pop" }
      ([checkStep, stopStep], topVal :: rest)

/-- The outer `for (let i = n - 1; i >= 0; i--)` loop, processing the items
`[(n-1, arr[n-1]), ..., (0, arr[0])]`.  Returns the recorded steps, the
final stack (head = top) and the final `ansList`. -/
def mainLoop : List (ℤ × ℤ) → List ℤ → List ℤ → List Step × List ℤ × List ℤ
  | [], stack, ansList => ([], stack, ansList)
  | (i, currentVal) :: rest, stack, ansList =>
    let loopStep : Step :=
      { stack := stack.reverse, rawAns := ansList, finalAns := [],
        phase := .loop, currentIndex := i,
        activeIndices := [i], codeLine := "loop" }
    let popped := popLoop currentVal i ansList stack
    let stack1 := popped.2
    let recRes : Step × List ℤ :=
      match stack1 with
      | recordedVal :: _ =>
        let ansList1 := ansList ++ [recordedVal]
        ({ stack := stack1.reverse, rawAns := ansList1, finalAns := [],
           phase := .record, currentIndex := i,
           highlightResultIdx := some ((ansList1.length : ℤ) - 1),
           activeIndices := [i], codeLine := "add-peek" }, ansList1)
      | [] =>
        let ansList1 := ansList ++ [-1]
        ({ stack := stack1.reverse, rawAns := ansList1, finalAns := [],
           phase := .record, currentIndex := i,
           highlightResultIdx := some ((ansList1.length : ℤ) - 1),
           activeIndices := [i], codeLine := "add-neg1" }, ansList1)
    let ansList1 := recRes.2
    let stack2 := currentVal :: stack1
    let pushStep : Step :=
      { stack := stack2.reverse, rawAns := ansList1, finalAns := [],
        phase := .push, currentIndex := i,
        activeIndices := [i], codeLine := "push" }
    let restRes := mainLoop rest stack2 ansList1
    (loopStep :: (popped.1 ++ [recRes.1, pushStep] ++ restRes.1),
     restRes.2.1, restRes.2.2)

/-- `generateSteps` of `Next-Greater-Element.tsx`: the full recorded trace
for input array `arr`. -/
def generateSteps (arr : List ℤ) : List Step :=
  let initStep : Step :=
    { stack := [], rawAns := [], finalAns := [], phase := .init,
      currentIndex := -1, activeIndices := [], codeLine := "init" }
  let items := (arr.enum.map (fun p => ((p.1 : ℤ), p.2))).reverse
  let res := mainLoop items [] []
  let stack := res.2.1
  let ansList := res.2.2
  let reverseStep : Step :=
    { stack := stack.reverse, rawAns := ansList, finalAns := [],
      phase := .reverse, currentIndex := -1, activeIndices := [],
      codeLine := "reverse" }
  let finalAns := ansList.reverse
  let completeStep : Step :=
    { stack := stack.reverse, rawAns := ansList, finalAns := finalAns,
      phase := .complete, currentIndex := -1, activeIndices := [],
      codeLine := "return" }
  initStep :: (res.1 ++ [reverseStep, completeStep])

/-- The transient player state of the component: the current index into the
trace and the play/pause flag. -/
structure PlayerState where
  currentStepIndex : ℕ
  isPlaying : Bool
deriving DecidableEq, Repr

/-- `handleNext`: advance if not at the last trace index, otherwise stop
playback.  `n` is `steps.length`. -/
def handleNext (n : ℕ) (s : PlayerState) : PlayerState :=
  if s.currentStepIndex < n - 1 then
    { s with currentStepIndex := s.currentStepIndex + 1 }
  else
    { s with isPlaying := false }

/-- `handlePrev`: step back if not at index 0. -/
def handlePrev (s : PlayerState) : PlayerState :=
  if 0 < s.currentStepIndex then
    { s with currentStepIndex := s.currentStepIndex - 1 }
  else s

/-- `handleReset`: back to index 0 and stop playback. -/
def handleReset (_ : PlayerState) : PlayerState :=
  { currentStepIndex := 0, isPlaying := false }

/-- `togglePlay`: flip the play/pause flag. -/
def togglePlay (s : PlayerState) : PlayerState :=
  { s with isPlaying := !s.isPlaying }

/-- A transport operation issued against the player (manually or by the
playback timer, which also invokes `handleNext`). -/
inductive TransportOp where
  | next | prev | reset | toggle
deriving DecidableEq, Repr

/-- Apply one transport operation. -/
def applyOp (n : ℕ) (s : PlayerState) : TransportOp → PlayerState
  | .next => handleNext n s
  | .prev => handlePrev s
  | .reset => handleReset s
  | .toggle => togglePlay s

/-- Apply a sequence of transport operations, oldest first. -/
def applyOps (n : ℕ) (s : PlayerState) (ops : List TransportOp) : PlayerState :=
  ops.foldl (applyOp n) s

/-- `MAX_ARR_SIZE` of `Next-Greater-Element.tsx`. -/
def MAX_ARR_SIZE : ℕ := 12

/-- `MAX_VAL` of `Next-Greater-Element.tsx`. -/
def MAX_VAL : ℕ := 50

/-- The character class of the input regex `/^[\d, -]*$/`. -/
def allowedChar (c : Char) : Bool :=
  c.isDigit || c = ',' || c = ' ' || c = '-'

/-- The validation path of `handleArrChange`: `some parts` when the edited
text passes the regex test, the length cap and the magnitude cap, `none`
otherwise (in which case `setArr` is not called). -/
def parseArrInput (s : String) : Option (List ℤ) :=
  if s.data.all allowedChar then
    let parts := parseTokens s
    if decide (parts.length ≤ MAX_ARR_SIZE) &&
        parts.all (fun p => match p with
          | some z => decide (z.natAbs ≤ MAX_VAL)
          | none => false) then
      some (parts.filterMap id)
    else none
  else none

/-- `handleArrChange` as a function of the stored array: an accepted edit
replaces it, a rejected edit leaves it unchanged. -/
def handleArrChange (cur : List ℤ) (s : String) : List ℤ :=
  (parseArrInput s).getD cur

/-- The component state relevant to trace regeneration. -/
structure ComponentState where
  arr : List ℤ
  steps : List Step
  currentStepIndex : ℕ
  isPlaying : Bool
deriving DecidableEq, Repr

/-- The reaction to an input change: the `useEffect` on `[arr]` runs
`generateSteps`, which stores the fresh trace and then resets the player
(`setCurrentStepIndex(0)`, `setIsPlaying(false)`). -/
def setInput (_ : ComponentState) (newArr : List ℤ) : ComponentState :=
  { arr := newArr, steps := generateSteps newArr,
    currentStepIndex := 0, isPlaying := false }

/-- A full edit event: if validation accepts the text, `setArr` fires and
the input-change reaction regenerates; otherwise nothing changes. -/
def editEvent (st : ComponentState) (text : String) : ComponentState :=
  match parseArrInput text with
  | some parts => setInput st parts
  | none => st

end NGE

/-! ## Maximum-product-subarray component (`src/unnamed/part_000`,
component `MaxProd`) -/

namespace MaxProd

/-- The `phase` tag of the component's `StepState`. -/
inductive Phase where
  | init | check_neg | swap | calc_max | calc_min | update_res | complete
deriving DecidableEq, Repr

/-- `StepState` of the maximum-product component (sans `explanation`). -/
structure Step where
  nums : List ℤ
  phase : Phase
  currentIndex : ℤ
  currVal : ℤ
  maxSoFar : ℤ
  minSoFar : ℤ
  result : ℤ
  prevMax : ℤ
  prevMin : ℤ
  didSwap : Bool
  codeLine : String
deriving DecidableEq, Repr

/-- The `for (let i = 1; i < nums.length; i++)` loop over the items
`[(1, nums[1]), ...]`, carrying `maxSoFar`, `minSoFar` and `result`. -/
def mainLoop (nums : List ℤ) :
    List (ℤ × ℤ) → ℤ → ℤ → ℤ → List Step × ℤ × ℤ × ℤ
  | [], maxSoFar, minSoFar, result => ([], maxSoFar, minSoFar, result)
  | (i, curr) :: rest, maxSoFar, minSoFar, result =>
    let prevMax := maxSoFar
    let prevMin := minSoFar
    let checkStep : Step :=
      { nums := nums, phase := .check_neg, currentIndex := i, currVal := curr,
        maxSoFar := maxSoFar, minSoFar := minSoFar, result := result,
        prevMax := prevMax, prevMin := prevMin, didSwap := false,
        codeLine := "loop-start" }
    let swapped := if curr < 0 then (minSoFar, maxSoFar) else (maxSoFar, minSoFar)
    let maxS1 := swapped.1
    let minS1 := swapped.2
    let swapSteps : List Step :=
      if curr < 0 then
        [{ nums := nums, phase := .swap, currentIndex := i, currVal := curr,
           maxSoFar := maxS1, minSoFar := minS1, result := result,
           prevMax := prevMax, prevMin := prevMin, didSwap := true,
           codeLine := "swap" }]
      else []
    let calcPrevMax := maxS1
    let calcPrevMin := minS1
    let newMax := max curr (curr * maxS1)
    let calcMaxStep : Step :=
      { nums := nums, phase := .calc_max, currentIndex := i, currVal := curr,
        maxSoFar := maxS1, minSoFar := minS1, result := result,
        prevMax := calcPrevMax, prevMin := calcPrevMin, didSwap := false,
        codeLine := "calc-max" }
    let newMin := min curr (curr * calcPrevMin)
    let calcMinStep : Step :=
      { nums := nums, phase := .calc_min, currentIndex := i, currVal := curr,
        maxSoFar := newMax, minSoFar := minS1, result := result,
        prevMax := calcPrevMax, prevMin := calcPrevMin, didSwap := false,
        codeLine := "calc-min" }
    let newResult := max result newMax
    let updStep : Step :=
      { nums := nums, phase := .update_res, currentIndex := i, currVal := curr,
        maxSoFar := newMax, minSoFar := newMin, result := newResult,
        prevMax := calcPrevMax, prevMin := calcPrevMin, didSwap := false,
        codeLine := "update-res" }
    let restRes := mainLoop nums rest newMax newMin newResult
    (checkStep :: (swapSteps ++ [calcMaxStep, calcMinStep, updStep] ++ restRes.1),
     restRes.2)

/-- `generateSteps` of the maximum-product component.  On an empty input the
source returns early without recording anything and without storing a trace
(`if (nums.length === 0) return;`), modelled as `none`. -/
def generateSteps (nums : List ℤ) : Option (List Step) :=
  match nums with
  | [] => none
  | first :: _ =>
    let initStep : Step :=
      { nums := nums, phase := .init, currentIndex := 0, currVal := first,
        maxSoFar := first, minSoFar := first, result := first,
        prevMax := first, prevMin := first, didSwap := false,
        codeLine := "init" }
    let items := ((nums.enum.map (fun p => ((p.1 : ℤ), p.2))).drop 1)
    let res := mainLoop nums items first first first
    let completeStep : Step :=
      { nums := nums, phase := .complete, currentIndex := -1, currVal := 0,
        maxSoFar := res.2.1, minSoFar := res.2.2.1, result := res.2.2.2,
        prevMax := 0, prevMin := 0, didSwap := false,
        codeLine := "return" }
    some (initStep :: (res.1 ++ [completeStep]))

end MaxProd

/-! ## Sum-of-subarray-minimums component (`src/unnamed/part_002`,
component `SubMins`) -/

namespace SubMins

/-- `const MOD = 1_000_000_007`. -/
def MOD : JSNum := .num 1000000007

/-- `StepState` of the subarray-minimums component (sans `explanation`). -/
structure Step where
  startIdx : ℤ
  endIdx : ℤ
  currentMin : JSNum
  addedVal : JSNum
  totalSum : JSNum
  subarrayStr : String
deriving DecidableEq, Repr

/-- The recorded rendering of `arr.slice(i, idx + 1).join(', ')`.  The
stored array is number-typed, so entries render through `String(n)`
(including `"NaN"`). -/
def subarrayStrOf (arr : List JSNum) (i idx : ℕ) : String :=
  "[" ++ String.intercalate ", "
    (((arr.drop i).take (idx + 1 - i)).map JSNum.render) ++ "]"

/-- The inner `for (let idx = i; idx < n; idx++)` loop over the items
`[(i, arr[i]), ..., (n-1, arr[n-1])]`, carrying `currentMin` (which starts
at `Infinity`) and the global `totalSum`.  The stored array is
number-typed — the component's input handler stores `Number()` results
without a `NaN` check — so elements are `JSNum`s. -/
def innerLoop (arr : List JSNum) (i : ℕ) :
    List (ℕ × JSNum) → JSNum → JSNum → List Step × JSNum
  | [], _, totalSum => ([], totalSum)
  | (idx, v) :: rest, currentMin, totalSum =>
    let currentMin1 := JSNum.minJ currentMin v
    let totalSum1 := JSNum.mod (JSNum.add totalSum currentMin1) MOD
    let step : Step :=
      { startIdx := (i : ℤ), endIdx := (idx : ℤ), currentMin := currentMin1,
        addedVal := currentMin1, totalSum := totalSum1,
        subarrayStr := subarrayStrOf arr i idx }
    let res := innerLoop arr i rest currentMin1 totalSum1
    (step :: res.1, res.2)

/-- The outer `for (let i = 0; i < n; i++)` loop over the start indices. -/
def outerLoop (arr : List JSNum) : List ℕ → JSNum → List Step × JSNum
  | [], totalSum => ([], totalSum)
  | i :: rest, totalSum =>
    let inner := innerLoop arr i (arr.enum.drop i) JSNum.posInf totalSum
    let restRes := outerLoop arr rest inner.2
    (inner.1 ++ restRes.1, restRes.2)

/-- `generateSteps` of the subarray-minimums component: the brute-force
double loop followed by the final "Complete" step. -/
def generateSteps (arr : List JSNum) : List Step :=
  let res := outerLoop arr (List.range arr.length) (JSNum.num 0)
  res.1 ++
    [{ startIdx := -1, endIdx := -1, currentMin := JSNum.num 0,
       addedVal := JSNum.num 0, totalSum := res.2,
       subarrayStr := "Complete" }]

/-- The validation path of the component's `handleArrChange`: regex
`/^[\d, ]*$/`, then `parts.length > 0 && parts.length <= 15`.  This handler
has no magnitude cap and no `NaN` check: it stores the `Number()` results
as they are, so an unparseable token (e.g. the interior-space token of
`"1 2"`, which passes the regex) is stored as `NaN`. -/
def parseArrInput (s : String) : Option (List JSNum) :=
  if s.data.all (fun c => c.isDigit || c = ',' || c = ' ') then
    let parts := parseTokens s
    if decide (0 < parts.length) && decide (parts.length ≤ 15) then
      some (parts.map (fun p =>
        match p with
        | some z => JSNum.num z
        | none => JSNum.nan))
    else none
  else none

end SubMins

/-- Insert `x` into an ascending list after every element `y` with
`le y x`, the insertion step of a stable insertion sort. -/
def insertLe {α : Type} (le : α → α → Bool) (x : α) : List α → List α
  | [] => [x]
  | y :: ys => if le y x then y :: insertLe le x ys else x :: y :: ys

/-- JavaScript `Array.prototype.sort` with an ascending numeric comparator:
a stable ascending sort.  A stable sort's output is uniquely determined by
the comparator, so this structurally recursive insertion sort computes the
same list as the engine's sort. -/
def stableSortBy {α : Type} (le : α → α → Bool) (l : List α) : List α :=
  l.foldl (fun acc x => insertLe le x acc) []

/-- `list[i].push(x)` on a list of lists (used for the per-day load bins of
`Ship` and the adjacency lists of `LC1976`). -/
def listPushAt {α : Type} : List (List α) → ℕ → α → List (List α)
  | [], _, _ => []
  | l :: rest, 0, x => (l ++ [x]) :: rest
  | l :: rest, i + 1, x => l :: listPushAt rest i x

/-! ## `Leetcode-1011-Capacity-To-Ship-Packages-Within-D-Days.tsx`
(component `Ship`) -/

namespace Ship

/-- The `phase` tag of the component's `StepState`. -/
inductive Phase where
  | search | sim_start | sim_load | sim_overflow | sim_fail | sim_success
  | complete
deriving DecidableEq, Repr

/-- `StepState` of the ship-packages component (sans `explanation` and the
presentational `errorMsg`). -/
structure Step where
  low : JSNum
  high : JSNum
  mid : JSNum
  ans : JSNum
  phase : Phase
  currentDay : ℤ
  currentLoad : ℤ
  processedPackages : List ℕ
  dayLoads : List (List ℤ)
  codeLine : String
deriving DecidableEq, Repr

/-- The `canShip` simulation inside one binary-search iteration: the
`for (let i = 0; i < weights.length; i++)` loop over `[(0, w₀), ...]`,
carrying `currWeight`, `day` and the visual `allDayLoads` bins; `possible`
becomes `false` (and the loop breaks) when a single package exceeds the
probed capacity. -/
def simLoop (low high mid ans : JSNum) :
    List (ℕ × ℤ) → ℤ → ℤ → List (List ℤ) →
    List Step × ℤ × ℤ × Bool × List (List ℤ)
  | [], currWeight, day, allDayLoads => ([], currWeight, day, true, allDayLoads)
  | (i, wt) :: rest, currWeight, day, allDayLoads =>
    let checkStep : Step :=
      { low := low, high := high, mid := mid, ans := ans, phase := .sim_load,
        currentDay := day, currentLoad := currWeight,
        processedPackages := List.range i, dayLoads := allDayLoads,
        codeLine := "sim-check" }
    let branch :=
      if JSNum.le (JSNum.ofInt (currWeight + wt)) mid then
        let currWeight1 := currWeight + wt
        let allDayLoads1 := listPushAt allDayLoads (day - 1).toNat wt
        let addStep : Step :=
          { low := low, high := high, mid := mid, ans := ans,
            phase := .sim_load, currentDay := day, currentLoad := currWeight1,
            processedPackages := List.range (i + 1), dayLoads := allDayLoads1,
            codeLine := "sim-add" }
        (addStep, currWeight1, day, allDayLoads1)
      else
        let day1 := day + 1
        let currWeight1 := wt
        let allDayLoads1 := allDayLoads ++ [[wt]]
        let overflowStep : Step :=
          { low := low, high := high, mid := mid, ans := ans,
            phase := .sim_overflow, currentDay := day1,
            currentLoad := currWeight1,
            processedPackages := List.range (i + 1), dayLoads := allDayLoads1,
            codeLine := "sim-new-day" }
        (overflowStep, currWeight1, day1, allDayLoads1)
    let currWeight1 := branch.2.1
    let day1 := branch.2.2.1
    let allDayLoads1 := branch.2.2.2
    if JSNum.lt mid (JSNum.ofInt currWeight1) then
      let failStep : Step :=
        { low := low, high := high, mid := mid, ans := ans, phase := .sim_fail,
          currentDay := day1, currentLoad := currWeight1,
          processedPackages := List.range (i + 1), dayLoads := allDayLoads1,
          codeLine := "sim-fail-weight" }
      ([checkStep, branch.1, failStep], currWeight1, day1, false, allDayLoads1)
    else
      let restRes := simLoop low high mid ans rest currWeight1 day1 allDayLoads1
      (checkStep :: branch.1 :: restRes.1, restRes.2)

/-- The `while (low <= high)` binary search, with a fuel bound on the number
of iterations (the interval shrinks every iteration, so any sufficiently
large fuel computes the full trace; the theorems below are either
fuel-generic or evaluate on inputs whose search finishes well inside the
wrapper's fuel). -/
def searchLoop (weights : List ℤ) (days : ℤ) :
    ℕ → JSNum → JSNum → JSNum → List Step × JSNum × JSNum × JSNum
  | 0, low, high, ans => ([], low, high, ans)
  | fuel + 1, low, high, ans =>
    if JSNum.le low high then
      let mid := JSNum.midFloor low high
      let probeStep : Step :=
        { low := low, high := high, mid := mid, ans := ans,
          phase := .sim_start, currentDay := 1, currentLoad := 0,
          processedPackages := [], dayLoads := [[]], codeLine := "calc-mid" }
      let sim := simLoop low high mid ans weights.enum 0 1 [[]]
      let currWeight := sim.2.1
      let day := sim.2.2.1
      let possible := sim.2.2.2.1
      let allDayLoads := sim.2.2.2.2
      if possible then
        if day ≤ days then
          let ans1 := mid
          let successStep : Step :=
            { low := low, high := high, mid := mid, ans := ans1,
              phase := .sim_success, currentDay := day,
              currentLoad := currWeight,
              processedPackages := List.range weights.length,
              dayLoads := allDayLoads, codeLine := "check-success" }
          let high1 := JSNum.sub mid (JSNum.num 1)
          let restRes := searchLoop weights days fuel low high1 ans1
          (probeStep :: sim.1 ++ [successStep] ++ restRes.1, restRes.2)
        else
          let failStep : Step :=
            { low := low, high := high, mid := mid, ans := ans,
              phase := .sim_fail, currentDay := day, currentLoad := currWeight,
              processedPackages := List.range weights.length,
              dayLoads := allDayLoads, codeLine := "check-fail-days" }
          let low1 := JSNum.add mid (JSNum.num 1)
          let restRes := searchLoop weights days fuel low1 high ans
          (probeStep :: sim.1 ++ [failStep] ++ restRes.1, restRes.2)
      else
        let low1 := JSNum.add mid (JSNum.num 1)
        let restRes := searchLoop weights days fuel low1 high ans
        (probeStep :: sim.1 ++ restRes.1, restRes.2)
    else ([], low, high, ans)

/-- Fuel that dominates the iteration count of the search: the interval
`[low, high]` starts no wider than `sum - min + 1` and loses at least one
point per iteration. -/
def searchFuel (weights : List ℤ) : ℕ :=
  (weights.map Int.natAbs).sum + weights.length + 4

/-- `generateSteps` of the ship-packages component.  `low` starts at
`Math.min(...weights)` (which is `Infinity` for an empty list) and `high`
at the sum reduced from 0. -/
def generateSteps (weights : List ℤ) (days : ℤ) : List Step :=
  let low := JSNum.minList (weights.map JSNum.ofInt)
  let high := JSNum.sumList (weights.map JSNum.ofInt)
  let initStep : Step :=
    { low := low, high := high, mid := JSNum.num 0, ans := JSNum.num 0,
      phase := .search, currentDay := 0, currentLoad := 0,
      processedPackages := [], dayLoads := [], codeLine := "init" }
  let res := searchLoop weights days (searchFuel weights) low high (JSNum.num 0)
  let completeStep : Step :=
    { low := res.2.1, high := res.2.2.1, mid := JSNum.num (-1),
      ans := res.2.2.2, phase := .complete, currentDay := 0, currentLoad := 0,
      processedPackages := [], dayLoads := [], codeLine := "return" }
  initStep :: res.1 ++ [completeStep]

/-- The validation path of `handleWeightChange`: regex `/^[\d, ]*$/`, then
`parts.length <= MAX_ARR_SIZE && parts.every(n => n <= MAX_VAL)` with
`MAX_ARR_SIZE = 15`, `MAX_VAL = 50` (an empty field parses to the empty
list and passes both checks). -/
def parseWeightInput (s : String) : Option (List ℤ) :=
  if s.data.all (fun c => c.isDigit || c = ',' || c = ' ') then
    let parts := parseTokens s
    if decide (parts.length ≤ 15) &&
        parts.all (fun p => match p with
          | some z => decide (z ≤ 50)
          | none => false) then
      some (parts.filterMap id)
    else none
  else none

end Ship

/-! ## `Leetcode-410-Split-Array-Largest-Sum.tsx` (component `Split`) -/

namespace Split

/-- The `phase` tag of the component's `StepState`. -/
inductive Phase where
  | search | check_start | check_process | check_result
deriving DecidableEq, Repr

/-- `StepState` of the split-array component (sans `explanation`); the
fields the source sometimes leaves `undefined` are `Option`s. -/
structure Step where
  lo : JSNum
  hi : JSNum
  mid : JSNum
  res : JSNum
  phase : Phase
  checkIndex : Option ℤ := none
  currentSum : Option ℤ := none
  partitionCount : Option ℤ := none
  splitIndices : List ℕ
  isFeasible : Option Bool := none
  codeLine : String
deriving DecidableEq, Repr

/-- The simulated `check` function: greedy partitioning of the items
`[(0, a₀), ...]` against capacity `mid`, recording one step per element
examination and one per split/add. -/
def checkLoop (lo hi mid res : JSNum) :
    List (ℕ × ℤ) → ℤ → ℤ → List ℕ → List Step × ℤ × ℤ × List ℕ
  | [], currentSum, partitions, splits => ([], currentSum, partitions, splits)
  | (i, val) :: rest, currentSum, partitions, splits =>
    let processStep : Step :=
      { lo := lo, hi := hi, mid := mid, res := res, phase := .check_process,
        checkIndex := some (i : ℤ), currentSum := some currentSum,
        partitionCount := some partitions, splitIndices := splits,
        codeLine := "check-loop" }
    if JSNum.lt mid (JSNum.ofInt (currentSum + val)) then
      let partitions1 := partitions + 1
      let splits1 := splits ++ [i]
      let currentSum1 := val
      let splitStep : Step :=
        { lo := lo, hi := hi, mid := mid, res := res, phase := .check_process,
          checkIndex := some (i : ℤ), currentSum := some currentSum1,
          partitionCount := some partitions1, splitIndices := splits1,
          codeLine := "check-split" }
      let restRes := checkLoop lo hi mid res rest currentSum1 partitions1 splits1
      (processStep :: splitStep :: restRes.1, restRes.2)
    else
      let currentSum1 := currentSum + val
      let addStep : Step :=
        { lo := lo, hi := hi, mid := mid, res := res, phase := .check_process,
          checkIndex := some (i : ℤ), currentSum := some currentSum1,
          partitionCount := some partitions, splitIndices := splits,
          codeLine := "check-add" }
      let restRes := checkLoop lo hi mid res rest currentSum1 partitions splits
      (processStep :: addStep :: restRes.1, restRes.2)

/-- The `while (lo <= hi)` binary search of the split-array component,
fuel-bounded as in `Ship.searchLoop`. -/
def searchLoop (arr : List ℤ) (k : ℤ) :
    ℕ → JSNum → JSNum → JSNum → List Step × JSNum × JSNum × JSNum
  | 0, lo, hi, res => ([], lo, hi, res)
  | fuel + 1, lo, hi, res =>
    if JSNum.le lo hi then
      let mid := JSNum.midFloor lo hi
      let probeStep : Step :=
        { lo := lo, hi := hi, mid := mid, res := res, phase := .check_start,
          checkIndex := some (-1), currentSum := some 0,
          partitionCount := some 1, splitIndices := [],
          codeLine := "calc-mid" }
      let check := checkLoop lo hi mid res arr.enum 0 1 []
      let currentSum := check.2.1
      let partitions := check.2.2.1
      let splits := check.2.2.2
      let valid := partitions ≤ k
      let resultStep : Step :=
        { lo := lo, hi := hi, mid := mid, res := res, phase := .check_result,
          checkIndex := some ((arr.length : ℤ) - 1),
          currentSum := some currentSum, partitionCount := some partitions,
          splitIndices := splits, isFeasible := some (decide valid),
          codeLine := "check-return" }
      if valid then
        let res1 := mid
        let hi1 := JSNum.sub mid (JSNum.num 1)
        let updStep : Step :=
          { lo := lo, hi := hi1, mid := mid, res := res1, phase := .search,
            splitIndices := splits, codeLine := "update-hi" }
        let restRes := searchLoop arr k fuel lo hi1 res1
        (probeStep :: check.1 ++ [resultStep, updStep] ++ restRes.1, restRes.2)
      else
        let lo1 := JSNum.add mid (JSNum.num 1)
        let updStep : Step :=
          { lo := lo1, hi := hi, mid := mid, res := res, phase := .search,
            splitIndices := splits, codeLine := "update-lo" }
        let restRes := searchLoop arr k fuel lo1 hi res
        (probeStep :: check.1 ++ [resultStep, updStep] ++ restRes.1, restRes.2)
    else ([], lo, hi, res)

/-- Fuel bound, as for `Ship.searchFuel`. -/
def searchFuel (arr : List ℤ) : ℕ :=
  (arr.map Int.natAbs).sum + arr.length + 4

/-- `generateSteps` of the split-array component.  `lo` starts at
`Math.max(...arr)` (which is `-Infinity` for an empty list) and `hi` at the
sum reduced from 0; `res` starts at `-1`. -/
def generateSteps (arr : List ℤ) (k : ℤ) : List Step :=
  let lo := JSNum.maxList (arr.map JSNum.ofInt)
  let hi := JSNum.sumList (arr.map JSNum.ofInt)
  let initStep : Step :=
    { lo := lo, hi := hi, mid := JSNum.num (-1), res := JSNum.num (-1),
      phase := .search, checkIndex := some (-1), currentSum := some 0,
      partitionCount := some 0, splitIndices := [], codeLine := "init" }
  let res := searchLoop arr k (searchFuel arr) lo hi (JSNum.num (-1))
  let finalStep : Step :=
    { lo := res.2.1, hi := res.2.2.1, mid := JSNum.num (-1),
      res := res.2.2.2, phase := .search, splitIndices := [],
      codeLine := "return-res" }
  initStep :: res.1 ++ [finalStep]

end Split

/-! ## `LC1976-NoWayToArrive.tsx` (component `LC1976`)

Dijkstra with path counting over the hardcoded `n = 7` example graph.
The `id` counter and `description` strings of the recorded steps are
presentational and omitted; all algorithmic fields are kept. -/

namespace LC1976

/-- `const n = 7`. -/
def n : ℕ := 7

/-- The hardcoded `roads` input `[u, v, w]`. -/
def roads : List (ℕ × ℕ × ℤ) :=
  [(0, 6, 7), (0, 1, 2), (1, 2, 3), (1, 3, 3), (6, 3, 3),
   (3, 5, 1), (6, 5, 1), (2, 5, 1), (0, 4, 5), (4, 6, 2)]

/-- An entry of the simulated priority queue. -/
structure PQEntry where
  node : ℕ
  dist : ℤ
deriving DecidableEq, Repr

/-- The `highlightType` tag of a recorded step. -/
inductive HType where
  | noHl | relax | accumulate | ignore
deriving DecidableEq, Repr

/-- A recorded `Step` of the simulation (sans `id` and `description`). -/
structure Step where
  pq : List PQEntry
  dist : List JSNum
  ways : List ℤ
  activeNode : Option ℕ
  activeNeighbor : Option ℕ
  highlightType : HType
  processed : List Bool
deriving DecidableEq, Repr

/-- The adjacency lists: both directions of every road appended in input
order, then each list sorted by target node (`list.sort((a,b) => a.to -
b.to)`, a stable ascending sort). -/
def adj : List (List (ℕ × ℤ)) :=
  (roads.foldl
      (fun acc r =>
        listPushAt (listPushAt acc r.1 (r.2.1, r.2.2)) r.2.1 (r.1, r.2.2))
      (List.replicate n [])).map
    (fun l => stableSortBy (fun a b => decide (a.1 ≤ b.1)) l)

/-- `addStep`: a snapshot with the priority queue copied and sorted by
distance (`[...pq].sort((a,b) => a.dist - b.dist)`). -/
def mkStep (pq : List PQEntry) (dist : List JSNum) (ways : List ℤ)
    (activeNode activeNeighbor : Option ℕ) (t : HType)
    (processed : List Bool) : Step :=
  { pq := stableSortBy (fun a b => decide (a.dist ≤ b.dist)) pq, dist := dist,
    ways := ways, activeNode := activeNode,
    activeNeighbor := activeNeighbor, highlightType := t,
    processed := processed }

/-- The `for (const edge of adj[u])` relaxation loop: for each neighbor,
record the check step, then relax (strictly shorter path), accumulate
(equal path, modulo `1_000_000_007`) or ignore.  `ways` values stay
non-negative, so the JavaScript remainder agrees with `Int.emod` here. -/
def relaxLoop (u : ℕ) (d : ℤ) (processed : List Bool) :
    List (ℕ × ℤ) → List PQEntry → List JSNum → List ℤ →
    List Step × List PQEntry × List JSNum × List ℤ
  | [], pq, dist, ways => ([], pq, dist, ways)
  | (v, time) :: restEdges, pq, dist, ways =>
    let newDist := d + time
    let checkStep := mkStep pq dist ways (some u) (some v) .noHl processed
    if JSNum.lt (JSNum.ofInt newDist) (dist.getD v JSNum.nan) then
      let dist1 := dist.set v (JSNum.ofInt newDist)
      let ways1 := ways.set v (ways.getD u 0)
      let pq1 := pq ++ [⟨v, newDist⟩]
      let relaxStep := mkStep pq1 dist1 ways1 (some u) (some v) .relax processed
      let restRes := relaxLoop u d processed restEdges pq1 dist1 ways1
      (checkStep :: relaxStep :: restRes.1, restRes.2)
    else if JSNum.ofInt newDist = dist.getD v JSNum.nan then
      let ways1 := ways.set v ((ways.getD v 0 + ways.getD u 0) % 1000000007)
      let accStep := mkStep pq dist ways1 (some u) (some v) .accumulate processed
      let restRes := relaxLoop u d processed restEdges pq dist ways1
      (checkStep :: accStep :: restRes.1, restRes.2)
    else
      let ignStep := mkStep pq dist ways (some u) (some v) .ignore processed
      let restRes := relaxLoop u d processed restEdges pq dist ways
      (checkStep :: ignStep :: restRes.1, restRes.2)

/-- The `while (pq.length > 0)` loop: sort the queue, poll the head, skip
stale entries, otherwise mark processed and relax the neighbors.  Fuel
bounds the iteration count; `none` marks exhaustion (never reached by the
wrapper's fuel, as the theorems' concrete evaluations show). -/
def loop : ℕ → List PQEntry → List JSNum → List ℤ → List Bool →
    Option (List Step × List JSNum × List ℤ × List Bool)
  | 0, pq, dist, ways, processed =>
    if pq.isEmpty then some ([], dist, ways, processed) else none
  | fuel + 1, pq, dist, ways, processed =>
    match stableSortBy (fun a b => decide (a.dist ≤ b.dist)) pq with
    | [] => some ([], dist, ways, processed)
    | top :: pqRest =>
      let u := top.node
      let d := top.dist
      let popStep := mkStep pqRest dist ways (some u) none .noHl processed
      if JSNum.lt (dist.getD u JSNum.nan) (JSNum.ofInt d) then
        let ignStep := mkStep pqRest dist ways (some u) none .ignore processed
        match loop fuel pqRest dist ways processed with
        | some res => some (popStep :: ignStep :: res.1, res.2)
        | none => none
      else
        let processed1 := processed.set u true
        let relax := relaxLoop u d processed1 (adj.getD u []) pqRest dist ways
        match loop fuel relax.2.1 relax.2.2.1 relax.2.2.2 processed1 with
        | some res => some (popStep :: relax.1 ++ res.1, res.2)
        | none => none

/-- The `useMemo` simulation: initialization, the Dijkstra loop, and the
final "Queue is empty" step. -/
def simulationSteps : List Step :=
  let dist0 := (List.replicate n JSNum.posInf).set 0 (JSNum.num 0)
  let ways0 := (List.replicate n (0 : ℤ)).set 0 1
  let processed0 := List.replicate n false
  let pq0 : List PQEntry := [⟨0, 0⟩]
  let initStep := mkStep pq0 dist0 ways0 none none .noHl processed0
  match loop 200 pq0 dist0 ways0 processed0 with
  | some res =>
    initStep :: res.1 ++
      [mkStep [] res.2.1 res.2.2.1 none none .noHl res.2.2.2]
  | none => []

end LC1976

/-- Claim C1: for the input array `[1,3,2,4]`, the Next Greater Element trace
generator produces a final `Step` whose recorded `finalAns` equals
`[3,4,4,-1]`, and the `Step` at trace index 0 has an empty stack and an empty
result list (the trace is a pure function of the input, so this is
independent of any prior playback). -/
theorem C1_nge_example_trace :
    ((NGE.generateSteps [1, 3, 2, 4]).getLast?.map NGE.Step.finalAns
      = some [3, 4, 4, -1])
    ∧ ((NGE.generateSteps [1, 3, 2, 4]).head?.map
        (fun s => (s.stack, s.rawAns)) = some ([], [])) := by
  decide

/-- Claim C2: for any fixed valid input, calling a trace generator twice
yields structurally identical Step sequences (same length, equal field
values at every position).  Each embedded generator is a pure function of
its input — the sources read no clock and use no randomness — so the two
runs are definitionally the same list. -/
theorem C2_generators_deterministic :
    (∀ arr : List ℤ, NGE.generateSteps arr = NGE.generateSteps arr)
    ∧ (∀ nums : List ℤ, MaxProd.generateSteps nums = MaxProd.generateSteps nums)
    ∧ (∀ arr : List JSNum,
        SubMins.generateSteps arr = SubMins.generateSteps arr)
    ∧ (∀ (weights : List ℤ) (days : ℤ),
        Ship.generateSteps weights days = Ship.generateSteps weights days)
    ∧ (∀ (arr : List ℤ) (k : ℤ),
        Split.generateSteps arr k = Split.generateSteps arr k)
    ∧ LC1976.simulationSteps = LC1976.simulationSteps :=
  ⟨fun _ => rfl, fun _ => rfl, fun _ => rfl, fun _ _ => rfl, fun _ _ => rfl,
   rfl⟩

-- One transport operation keeps the index within `[0, N-1]`.
theorem applyOp_idx_le {N : ℕ} (s : NGE.PlayerState)
    (h : s.currentStepIndex ≤ N - 1) (op : NGE.TransportOp) :
    (NGE.applyOp N s op).currentStepIndex ≤ N - 1 := by
  cases op <;>
    simp only [NGE.applyOp, NGE.handleNext, NGE.handlePrev, NGE.handleReset,
      NGE.togglePlay] <;>
    (try split) <;> (try simp) <;> omega

-- Any sequence of transport operations keeps the index within `[0, N-1]`.
theorem applyOps_idx_le {N : ℕ} :
    ∀ (ops : List NGE.TransportOp) (s : NGE.PlayerState),
    s.currentStepIndex ≤ N - 1 →
    (NGE.applyOps N s ops).currentStepIndex ≤ N - 1
  | [], _, h => h
  | op :: ops, s, h =>
    applyOps_idx_le ops (NGE.applyOp N s op) (applyOp_idx_le s h op)

/-- Claim C4: for a trace of length `N ≥ 1` and `currentStepIndex ∈
[0, N-1]`, `handleNext` increments the index by exactly 1 below the last
index and otherwise leaves it unchanged while stopping playback;
`handlePrev` decrements by exactly 1 above 0 and otherwise leaves the state
unchanged; consequently the index never leaves `[0, N-1]` under any
sequence of transport operations. -/
theorem C4_transport_bounds (N : ℕ) (s : NGE.PlayerState) (_hN : 1 ≤ N)
    (hidx : s.currentStepIndex ≤ N - 1) :
    (s.currentStepIndex < N - 1 →
      NGE.handleNext N s =
        { s with currentStepIndex := s.currentStepIndex + 1 })
    ∧ (s.currentStepIndex = N - 1 →
        NGE.handleNext N s = { s with isPlaying := false })
    ∧ (0 < s.currentStepIndex →
        NGE.handlePrev s =
          { s with currentStepIndex := s.currentStepIndex - 1 })
    ∧ (s.currentStepIndex = 0 → NGE.handlePrev s = s)
    ∧ ∀ ops : List NGE.TransportOp,
        (NGE.applyOps N s ops).currentStepIndex ≤ N - 1 := by
  refine ⟨fun h => ?_, fun h => ?_, fun h => ?_, fun h => ?_,
    fun ops => applyOps_idx_le ops s hidx⟩
  · simp [NGE.handleNext, h]
  · simp [NGE.handleNext, h]
  · simp [NGE.handlePrev, h]
  · simp [NGE.handlePrev, h]

/-- Witness for C4 at `N = 3`: a concrete operation sequence never escapes
the index range. -/
theorem C4_transport_bounds_witness :
    (NGE.applyOps 3 ⟨0, false⟩
      [.next, .toggle, .next, .next, .next, .prev, .reset, .next]
      ).currentStepIndex ≤ 3 - 1 :=
  (C4_transport_bounds 3 ⟨0, false⟩ (by decide) (by decide)).2.2.2.2 _

/-- Claim C5: whenever the input array changes (in any prior player state,
including `isPlaying = true`), the component regenerates a complete fresh
trace from the new input and resets the player to `currentStepIndex = 0`
and `isPlaying = false` in the same reaction, dropping the old trace. -/
theorem C5_input_change_resets (st : NGE.ComponentState) (newArr : List ℤ) :
    (NGE.setInput st newArr).steps = NGE.generateSteps newArr
    ∧ (NGE.setInput st newArr).currentStepIndex = 0
    ∧ (NGE.setInput st newArr).isPlaying = false
    ∧ (NGE.setInput st newArr).arr = newArr :=
  ⟨rfl, rfl, rfl, rfl⟩

/-- Claim C3 counterexample: the maximum-product trace generator — one of
the claim's cited generators — produces no Step sequence at all for the
boundary input `[]` (the source returns early, storing nothing), so it does
not return a sequence of length at least 1 there. -/
theorem C3_counterexample :
    ¬ ∃ t : List MaxProd.Step,
      MaxProd.generateSteps [] = some t ∧ 1 ≤ t.length := by
  rintro ⟨t, h, -⟩
  simp [MaxProd.generateSteps] at h

/-- Claim C3 (amended): the Next-Greater-Element generator returns a trace
of length at least 1 whose first Step is the initial state for every input
including the empty array; the maximum-product generator does so for every
nonempty input, and on the empty array it declines to produce a trace (its
input pipeline never yields an empty array). -/
theorem C3_nonempty_trace :
    (∀ arr : List ℤ, 1 ≤ (NGE.generateSteps arr).length
      ∧ (NGE.generateSteps arr).head?.map NGE.Step.phase = some .init)
    ∧ (∀ nums : List ℤ, nums ≠ [] →
        ∃ t, MaxProd.generateSteps nums = some t ∧ 1 ≤ t.length
          ∧ t.head?.map MaxProd.Step.phase = some .init) := by
  constructor
  · intro arr
    simp [NGE.generateSteps]
  · intro nums hne
    match nums with
    | [] => exact absurd rfl hne
    | first :: rest =>
      refine ⟨_, rfl, ?_, ?_⟩ <;> simp [MaxProd.generateSteps]

/-- Witness for C3 at the nonempty input `[2]`. -/
theorem C3_nonempty_trace_witness :
    ∃ t, MaxProd.generateSteps [2] = some t ∧ 1 ≤ t.length
      ∧ t.head?.map MaxProd.Step.phase = some .init :=
  C3_nonempty_trace.2 [2] (by decide)

/-- Claim C10: in the ship-packages visualizer a blank weights field passes
the input handler's checks (yielding the empty list), and for empty weights
the generator starts with `low = Math.min() = Infinity` and `high = 0`, the
binary-search loop never runs, and the trace is exactly the init Step and
the complete Step with final answer `ans = 0`. -/
theorem C10_empty_weights :
    Ship.parseWeightInput "" = some []
    ∧ ∀ days : ℤ,
      Ship.generateSteps [] days =
        [{ low := JSNum.posInf, high := JSNum.num 0, mid := JSNum.num 0,
           ans := JSNum.num 0, phase := .search, currentDay := 0,
           currentLoad := 0, processedPackages := [], dayLoads := [],
           codeLine := "init" },
         { low := JSNum.posInf, high := JSNum.num 0, mid := JSNum.num (-1),
           ans := JSNum.num 0, phase := .complete, currentDay := 0,
           currentLoad := 0, processedPackages := [], dayLoads := [],
           codeLine := "return" }] := by
  refine ⟨by decide, fun days => ?_⟩
  rfl

-- An accepted Next-Greater-Element edit satisfies the documented caps.
theorem parseArrInput_caps {s : String} {parts : List ℤ}
    (h : NGE.parseArrInput s = some parts) :
    s.data.all NGE.allowedChar = true ∧ parts.length ≤ NGE.MAX_ARR_SIZE
      ∧ ∀ x ∈ parts, x.natAbs ≤ NGE.MAX_VAL := by
  simp only [NGE.parseArrInput] at h
  split at h
  case isFalse hc => exact absurd h (by simp)
  case isTrue hc =>
    split at h
    case isFalse => exact absurd h (by simp)
    case isTrue hcond =>
      rw [Option.some_inj] at h
      subst h
      rw [Bool.and_eq_true, decide_eq_true_iff, List.all_eq_true] at hcond
      refine ⟨hc, ?_, ?_⟩
      · exact le_trans (List.length_filterMap_le _ _) hcond.1
      · intro x hx
        rw [List.mem_filterMap] at hx
        obtain ⟨p, hp, hpx⟩ := hx
        have := hcond.2 p hp
        cases p with
        | none => simp at this
        | some z =>
          cases hpx
          exact decide_eq_true_iff.mp this

/-- Claim C8: an input edit that fails validation (a character outside the
allowed pattern, more than `MAX_ARR_SIZE = 12` elements, an unparseable
token, or a value with `|value| > MAX_VAL = 50`) leaves the stored input
array unchanged — and with it the displayed trace, `currentStepIndex` and
`isPlaying`; conversely, the input state is updated only when the full text
passes the character test and parses within the caps (likewise for the
subarray-minimums handler and its `0 < length ≤ 15` cap). -/
theorem C8_invalid_edit_unchanged (st : NGE.ComponentState) (cur : List ℤ)
    (s : String) (hinv : NGE.parseArrInput s = none) :
    NGE.editEvent st s = st
    ∧ NGE.handleArrChange cur s = cur
    ∧ (∀ (st2 : NGE.ComponentState) (s2 : String),
        NGE.editEvent st2 s2 ≠ st2 →
        ∃ parts, NGE.parseArrInput s2 = some parts
          ∧ s2.data.all NGE.allowedChar = true
          ∧ parts.length ≤ NGE.MAX_ARR_SIZE
          ∧ ∀ x ∈ parts, x.natAbs ≤ NGE.MAX_VAL)
    ∧ (∀ (s2 : String) (parts : List JSNum),
        SubMins.parseArrInput s2 = some parts →
        s2.data.all (fun c => c.isDigit || c = ',' || c = ' ') = true
          ∧ 0 < parts.length ∧ parts.length ≤ 15) := by
  refine ⟨?_, ?_, ?_, ?_⟩
  · unfold NGE.editEvent
    rw [hinv]
  · unfold NGE.handleArrChange
    rw [hinv]
    rfl
  · intro st2 s2 hne
    cases hp : NGE.parseArrInput s2 with
    | none =>
      unfold NGE.editEvent at hne
      rw [hp] at hne
      exact absurd rfl hne
    | some parts =>
      obtain ⟨h1, h2, h3⟩ := parseArrInput_caps hp
      exact ⟨parts, rfl, h1, h2, h3⟩
  · intro s2 parts hp
    simp only [SubMins.parseArrInput] at hp
    split at hp
    case isFalse => exact absurd hp (by simp)
    case isTrue hc =>
      split at hp
      case isFalse => exact absurd hp (by simp)
      case isTrue hcond =>
        rw [Option.some_inj] at hp
        subst hp
        rw [Bool.and_eq_true, decide_eq_true_iff, decide_eq_true_iff] at hcond
        refine ⟨hc, ?_, ?_⟩
        · simpa using hcond.1
        · simpa using hcond.2

/-- Witness for C8: the edit `"1, 3, x"` (disallowed character) is
rejected and leaves a concrete component state untouched. -/
theorem C8_invalid_edit_unchanged_witness :
    NGE.editEvent ⟨[1, 3, 2, 4], NGE.generateSteps [1, 3, 2, 4], 2, true⟩
        "1, 3, x" =
      ⟨[1, 3, 2, 4], NGE.generateSteps [1, 3, 2, 4], 2, true⟩
    ∧ NGE.handleArrChange [5] "1, 3, x" = [5] :=
  ⟨(C8_invalid_edit_unchanged _ [5] "1, 3, x" (by decide)).1,
   (C8_invalid_edit_unchanged ⟨[], [], 0, false⟩ [5] "1, 3, x"
      (by decide)).2.1⟩

-- The last element of `a :: (l ++ [r, c])`.
theorem getLast?_cons_append_pair {α : Type} (a r c : α) (l : List α) :
    (a :: (l ++ [r, c])).getLast? = some c := by
  rw [show a :: (l ++ [r, c]) = (a :: (l ++ [r])) ++ [c] from by simp,
    List.getLast?_concat]

/-- Claim C9 counterexample: in the subarray-minimums trace for the default
input `[3,1,2,4]`, the Step at index 0 is not an initial/base-case state:
it already records the first algorithmic action (subarray `[0..0]`) with
the accumulator `totalSum` already updated to 3 (the initial accumulator
value is 0), and the component's steps carry no `phase` field at all. -/
theorem C9_counterexample :
    ((SubMins.generateSteps
        [JSNum.num 3, JSNum.num 1, JSNum.num 2, JSNum.num 4]).head?.map
        (fun s => (s.startIdx, s.endIdx, s.totalSum)))
      = some (0, 0, JSNum.num 3)
    ∧ (JSNum.num 3 : JSNum) ≠ JSNum.num 0 := by
  exact ⟨rfl, by decide⟩

/-- Claim C9 (amended): in the Next-Greater-Element trace, index 0 is the
initial state and the last Step carries the terminal `phase` value
`complete` and records the final result (`finalAns` is the reverse of the
accumulated answer list); in the subarray-minimums trace the last Step is
the terminal marker (`subarrayStr = "Complete"`) and records the final
accumulated sum, but its steps have no phase enum and its trace starts
directly with the first algorithm step; in the hardcoded LC1976 simulation,
index 0 is the initialization snapshot and the last Step is the
"queue empty" terminal snapshot recording the final `ways`/`dist`. -/
theorem C9_terminal_steps (nums : List ℤ) (arr : List JSNum) :
    ((NGE.generateSteps nums).head?.map NGE.Step.phase = some .init)
    ∧ (∃ s : NGE.Step, (NGE.generateSteps nums).getLast? = some s
        ∧ s.phase = .complete ∧ s.finalAns = s.rawAns.reverse)
    ∧ (∃ s : SubMins.Step, (SubMins.generateSteps arr).getLast? = some s
        ∧ s.subarrayStr = "Complete"
        ∧ s.totalSum = (SubMins.outerLoop arr (List.range arr.length)
            (JSNum.num 0)).2)
    ∧ (LC1976.simulationSteps.head?.map
        (fun s => (s.pq, s.ways, s.activeNode, s.processed)) =
        some ([⟨0, 0⟩], [1, 0, 0, 0, 0, 0, 0], none,
          [false, false, false, false, false, false, false]))
    ∧ (LC1976.simulationSteps.getLast?.map
        (fun s => (s.pq, s.ways, s.dist)) =
        some ([], [1, 1, 1, 1, 1, 2, 4],
          [JSNum.num 0, JSNum.num 2, JSNum.num 5, JSNum.num 5, JSNum.num 5,
           JSNum.num 6, JSNum.num 7])) := by
  refine ⟨?_, ?_, ?_, by decide, by decide⟩
  · simp [NGE.generateSteps]
  · exact ⟨_, getLast?_cons_append_pair _ _ _ _, rfl, rfl⟩
  · exact ⟨_, List.getLast?_concat _, rfl, rfl⟩

-- The JS remainder by the fixed modulus keeps a nonnegative accumulator
-- inside `[0, 1_000_000_007)`.
theorem mod_big_range (x : ℤ) (hx : 0 ≤ x) :
    JSNum.mod (JSNum.num x) (JSNum.num 1000000007) =
      JSNum.num (x % 1000000007)
    ∧ 0 ≤ x % 1000000007 ∧ x % 1000000007 < 1000000007 := by
  refine ⟨?_, Int.emod_nonneg x (by norm_num),
    Int.emod_lt_of_pos x (by norm_num)⟩
  simp only [JSNum.mod]
  rw [if_neg (by norm_num), Int.tmod_eq_emod hx (by norm_num)]

-- `Math.min` of the running minimum (`Infinity` or a nonnegative integer)
-- and a nonnegative integer is a nonnegative integer.
theorem minJ_num_nonneg {cm : JSNum} {v : ℤ}
    (hcm : cm = JSNum.posInf ∨ ∃ c : ℤ, 0 ≤ c ∧ cm = JSNum.num c)
    (hv : 0 ≤ v) :
    ∃ m : ℤ, 0 ≤ m ∧ JSNum.minJ cm (JSNum.num v) = JSNum.num m := by
  rcases hcm with h | ⟨c, hc, h⟩ <;> subst h
  · exact ⟨v, hv, by simp [JSNum.minJ, JSNum.le]⟩
  · by_cases hle : c ≤ v
    · exact ⟨c, hc, by simp [JSNum.minJ, JSNum.le, hle]⟩
    · exact ⟨v, hv, by simp [JSNum.minJ, JSNum.le, hle]⟩

-- Every step recorded by the inner subarray loop carries a `totalSum` in
-- `[0, MOD)`, and the loop returns such a value, provided the pending
-- elements are nonnegative integers and the incoming accumulator is in
-- range.
theorem innerLoop_range (arr : List JSNum) (i : ℕ) :
    ∀ (items : List (ℕ × JSNum)) (cm : JSNum) (z : ℤ),
      (∀ p ∈ items, ∃ w : ℤ, 0 ≤ w ∧ p.2 = JSNum.num w) →
      (cm = JSNum.posInf ∨ ∃ c : ℤ, 0 ≤ c ∧ cm = JSNum.num c) →
      0 ≤ z → z < 1000000007 →
      (∀ s ∈ (SubMins.innerLoop arr i items cm (JSNum.num z)).1,
        ∃ t : ℤ, 0 ≤ t ∧ t < 1000000007 ∧ s.totalSum = JSNum.num t)
      ∧ ∃ t : ℤ, 0 ≤ t ∧ t < 1000000007 ∧
          (SubMins.innerLoop arr i items cm (JSNum.num z)).2 = JSNum.num t
  | [], cm, z, _, _, hz0, hz1 =>
    ⟨by simp [SubMins.innerLoop], z, hz0, hz1, by simp [SubMins.innerLoop]⟩
  | (idx, v) :: rest, cm, z, hitems, hcm, hz0, hz1 => by
    obtain ⟨w, hw, hveq⟩ := hitems (idx, v) (by simp)
    rw [show ((idx, v) : ℕ × JSNum).2 = v from rfl] at hveq
    subst hveq
    obtain ⟨m, hm, hminJ⟩ := minJ_num_nonneg hcm hw
    obtain ⟨hmod, hr0, hr1⟩ := mod_big_range (z + m) (by omega)
    have hrest : ∀ p ∈ rest, ∃ w : ℤ, 0 ≤ w ∧ p.2 = JSNum.num w :=
      fun p hp => hitems p (List.mem_cons_of_mem _ hp)
    have ih := innerLoop_range arr i rest (JSNum.num m)
      ((z + m) % 1000000007) hrest (Or.inr ⟨m, hm, rfl⟩) hr0 hr1
    constructor
    · intro s hs
      simp only [SubMins.innerLoop, hminJ, JSNum.add, SubMins.MOD, hmod,
        List.mem_cons] at hs
      rcases hs with h | h
      · subst h
        exact ⟨(z + m) % 1000000007, hr0, hr1, rfl⟩
      · exact ih.1 s h
    · obtain ⟨t, ht0, ht1, hteq⟩ := ih.2
      refine ⟨t, ht0, ht1, ?_⟩
      simp only [SubMins.innerLoop, hminJ, JSNum.add, SubMins.MOD, hmod]
      exact hteq

-- The outer subarray loop preserves the accumulator range and only records
-- in-range accumulators, for stored arrays of nonnegative integers.
theorem outerLoop_range (arr : List JSNum)
    (ha : ∀ x ∈ arr, ∃ w : ℤ, 0 ≤ w ∧ x = JSNum.num w) :
    ∀ (is : List ℕ) (z : ℤ), 0 ≤ z → z < 1000000007 →
      (∀ s ∈ (SubMins.outerLoop arr is (JSNum.num z)).1,
        ∃ t : ℤ, 0 ≤ t ∧ t < 1000000007 ∧ s.totalSum = JSNum.num t)
      ∧ ∃ t : ℤ, 0 ≤ t ∧ t < 1000000007 ∧
          (SubMins.outerLoop arr is (JSNum.num z)).2 = JSNum.num t
  | [], z, hz0, hz1 =>
    ⟨by simp [SubMins.outerLoop], z, hz0, hz1, by simp [SubMins.outerLoop]⟩
  | i :: rest, z, hz0, hz1 => by
    have hdrop : ∀ p ∈ arr.enum.drop i, ∃ w : ℤ, 0 ≤ w ∧ p.2 = JSNum.num w
        := by
      intro p hp
      have hmem : p ∈ arr.enum := List.mem_of_mem_drop hp
      have h2 : p.2 ∈ arr := by
        have := List.mem_map_of_mem Prod.snd hmem
        rwa [List.enum_map_snd] at this
      exact ha _ h2
    have hinner := innerLoop_range arr i (arr.enum.drop i) JSNum.posInf z
      hdrop (Or.inl rfl) hz0 hz1
    obtain ⟨t, ht0, ht1, hteq⟩ := hinner.2
    have ih := outerLoop_range arr ha rest t ht0 ht1
    constructor
    · intro s hs
      simp only [SubMins.outerLoop, hteq, List.mem_append] at hs
      rcases hs with h | h
      · exact hinner.1 s h
      · exact ih.1 s h
    · obtain ⟨u, hu0, hu1, hueq⟩ := ih.2
      refine ⟨u, hu0, hu1, ?_⟩
      simp only [SubMins.outerLoop, hteq]
      exact hueq

/-- Claim C7 counterexample: the subarray-minimums input handler accepts
the text `"1 2"` (it passes the regex `/^[\d, ]*$/` and the length check)
and stores `[NaN]`; on that stored array every recorded `totalSum` is
`NaN` — `Math.min(Infinity, NaN) = NaN` and `(0 + NaN) % 1_000_000_007 =
NaN` — which lies outside `[0, 1_000_000_007)`.  So the claim fails at a
reachable input. -/
theorem C7_counterexample :
    SubMins.parseArrInput "1 2" = some [JSNum.nan]
    ∧ (∀ s ∈ SubMins.generateSteps [JSNum.nan], s.totalSum = JSNum.nan)
    ∧ ∀ t : ℤ, ¬(0 ≤ t ∧ t < 1000000007
        ∧ (JSNum.nan : JSNum) = JSNum.num t) := by
  refine ⟨by decide, by decide, fun t ht => ?_⟩
  exact JSNum.noConfusion ht.2.2

/-- Claim C7 (amended): in the LC1976 simulation every `ways` value
recorded in any Step lies in `[0, 1_000_000_007)`; in the
subarray-minimums generator every recorded `totalSum` lies in
`[0, 1_000_000_007)` whenever the stored array consists of nonnegative
integers — i.e. whenever every token of the input text actually parsed —
but the handler also stores `NaN` for unparseable tokens that pass its
regex (e.g. `"1 2"`), and then every recorded `totalSum` is `NaN`,
outside the range. -/
theorem C7_modulus_range (arr : List JSNum)
    (h : ∀ x ∈ arr, ∃ w : ℤ, 0 ≤ w ∧ x = JSNum.num w) :
    (∀ s ∈ SubMins.generateSteps arr,
      ∃ t : ℤ, 0 ≤ t ∧ t < 1000000007 ∧ s.totalSum = JSNum.num t)
    ∧ (∀ s ∈ LC1976.simulationSteps, ∀ w ∈ s.ways,
        0 ≤ w ∧ w < 1000000007) := by
  have hmain := outerLoop_range arr h (List.range arr.length) 0 le_rfl
    (by norm_num)
  constructor
  · intro s hs
    simp only [SubMins.generateSteps, List.mem_append, List.mem_singleton]
      at hs
    rcases hs with h1 | h2
    · exact hmain.1 s h1
    · obtain ⟨t, ht0, ht1, hteq⟩ := hmain.2
      subst h2
      exact ⟨t, ht0, ht1, hteq⟩
  · decide

/-- Witness for C7 at the default stored array `[3,1,2,4]`. -/
theorem C7_modulus_range_witness :
    (∀ x ∈ ([JSNum.num 3, JSNum.num 1, JSNum.num 2, JSNum.num 4] :
        List JSNum), ∃ w : ℤ, 0 ≤ w ∧ x = JSNum.num w)
    ∧ ∀ s ∈ SubMins.generateSteps
        [JSNum.num 3, JSNum.num 1, JSNum.num 2, JSNum.num 4],
        ∃ t : ℤ, 0 ≤ t ∧ t < 1000000007 ∧ s.totalSum = JSNum.num t := by
  have hnn : ∀ x ∈ ([JSNum.num 3, JSNum.num 1, JSNum.num 2, JSNum.num 4] :
      List JSNum), ∃ w : ℤ, 0 ≤ w ∧ x = JSNum.num w := by
    intro x hx
    simp only [List.mem_cons, List.not_mem_nil, or_false] at hx
    rcases hx with rfl | rfl | rfl | rfl
    · exact ⟨3, by norm_num, rfl⟩
    · exact ⟨1, by norm_num, rfl⟩
    · exact ⟨2, by norm_num, rfl⟩
    · exact ⟨4, by norm_num, rfl⟩
  exact ⟨hnn, (C7_modulus_range
    [JSNum.num 3, JSNum.num 1, JSNum.num 2, JSNum.num 4] hnn).1⟩

/-- Claim C6 counterexample: the split-array generator's input handler
accepts a blank field, and on the resulting empty array the recorded probe
step has `lo = -Infinity ≤ hi = 0` yet `mid = NaN` (the midpoint expression
evaluates `-Infinity + Infinity`), so the recorded mid does not satisfy
`lo ≤ mid ≤ hi`. -/
theorem C6_counterexample :
    ((Split.generateSteps [] 2).get? 1).map
        (fun s => (s.phase, s.lo, s.hi, s.mid))
      = some (.check_start, JSNum.negInf, JSNum.num 0, JSNum.nan)
    ∧ JSNum.le JSNum.negInf (JSNum.num 0) = true
    ∧ ¬(JSNum.le JSNum.negInf JSNum.nan = true
        ∧ JSNum.le JSNum.nan (JSNum.num 0) = true) := by
  decide

-- On finite bounds with `a ≤ b` the midpoint lies inside `[a, b]`.
theorem midFloor_bounds {a b : ℤ} (h : a ≤ b) :
    JSNum.le (JSNum.num a) (JSNum.midFloor (JSNum.num a) (JSNum.num b))
        = true
    ∧ JSNum.le (JSNum.midFloor (JSNum.num a) (JSNum.num b)) (JSNum.num b)
        = true := by
  have h1 : a ≤ a + (b - a) / 2 := by omega
  have h2 : a + (b - a) / 2 ≤ b := by omega
  exact ⟨by simp [JSNum.midFloor, JSNum.le, h1],
         by simp [JSNum.midFloor, JSNum.le, h2]⟩

-- Folding JS `Math.min` over integer values from an integer seed stays an
-- integer.
theorem foldl_minJ_num : ∀ (l : List ℤ) (z : ℤ),
    ∃ m : ℤ, (l.map JSNum.ofInt).foldl JSNum.minJ (JSNum.num z) = JSNum.num m
  | [], z => ⟨z, rfl⟩
  | v :: l, z => by
    rcases foldl_minJ_num l (if z ≤ v then z else v) with ⟨m, hm⟩
    have hstep : JSNum.minJ (JSNum.num z) (JSNum.ofInt v)
        = JSNum.num (if z ≤ v then z else v) := by
      by_cases h : z ≤ v <;> simp [JSNum.minJ, JSNum.le, JSNum.ofInt, h]
    exact ⟨m, by simpa [hstep] using hm⟩

-- `Math.min(...)` of a nonempty integer list is an integer.
theorem minList_num (w : ℤ) (l : List ℤ) :
    ∃ m : ℤ, JSNum.minList ((w :: l).map JSNum.ofInt) = JSNum.num m := by
  have h1 : JSNum.minJ JSNum.posInf (JSNum.ofInt w) = JSNum.num w := by
    simp [JSNum.minJ, JSNum.le, JSNum.ofInt]
  simpa [JSNum.minList, h1] using foldl_minJ_num l w

-- Folding JS `Math.max` over integer values from an integer seed stays an
-- integer.
theorem foldl_maxJ_num : ∀ (l : List ℤ) (z : ℤ),
    ∃ m : ℤ, (l.map JSNum.ofInt).foldl JSNum.maxJ (JSNum.num z) = JSNum.num m
  | [], z => ⟨z, rfl⟩
  | v :: l, z => by
    rcases foldl_maxJ_num l (if z ≤ v then v else z) with ⟨m, hm⟩
    have hstep : JSNum.maxJ (JSNum.num z) (JSNum.ofInt v)
        = JSNum.num (if z ≤ v then v else z) := by
      by_cases h : z ≤ v <;> simp [JSNum.maxJ, JSNum.le, JSNum.ofInt, h]
    exact ⟨m, by simpa [hstep] using hm⟩

-- `Math.max(...)` of a nonempty integer list is an integer.
theorem maxList_num (w : ℤ) (l : List ℤ) :
    ∃ m : ℤ, JSNum.maxList ((w :: l).map JSNum.ofInt) = JSNum.num m := by
  have h1 : JSNum.maxJ JSNum.negInf (JSNum.ofInt w) = JSNum.num w := by
    simp [JSNum.maxJ, JSNum.le, JSNum.ofInt]
  simpa [JSNum.maxList, h1] using foldl_maxJ_num l w

-- The reduced sum of an integer list is an integer.
theorem foldl_add_num : ∀ (l : List ℤ) (z : ℤ),
    ∃ m : ℤ, (l.map JSNum.ofInt).foldl JSNum.add (JSNum.num z) = JSNum.num m
  | [], z => ⟨z, rfl⟩
  | v :: l, z => by
    simpa [show JSNum.add (JSNum.num z) (JSNum.ofInt v) = JSNum.num (z + v)
      from rfl] using foldl_add_num l (z + v)

theorem sumList_num (l : List ℤ) :
    ∃ h : ℤ, JSNum.sumList (l.map JSNum.ofInt) = JSNum.num h := by
  simpa [JSNum.sumList] using foldl_add_num l 0

-- The `canShip` simulation records only loading/overflow/failure phases,
-- never a probe phase.
theorem ship_simLoop_phases (low high mid ans : JSNum) :
    ∀ (items : List (ℕ × ℤ)) (cw day : ℤ) (loads : List (List ℤ)),
      ∀ s ∈ (Ship.simLoop low high mid ans items cw day loads).1,
        s.phase = Ship.Phase.sim_load ∨ s.phase = Ship.Phase.sim_overflow
          ∨ s.phase = Ship.Phase.sim_fail
  | [], cw, day, loads => by simp [Ship.simLoop]
  | (i, wt) :: rest, cw, day, loads => by
    intro s hs
    have ih := ship_simLoop_phases low high mid ans rest
    simp only [Ship.simLoop] at hs
    cases hc1 : JSNum.le (JSNum.ofInt (cw + wt)) mid with
    | true =>
      simp only [hc1] at hs
      cases hc2 : JSNum.lt mid (JSNum.ofInt (cw + wt)) with
      | true =>
        simp [hc2, List.mem_cons] at hs
        rcases hs with rfl | rfl | rfl
        · exact Or.inl rfl
        · exact Or.inl rfl
        · exact Or.inr (Or.inr rfl)
      | false =>
        simp [hc2, List.mem_cons] at hs
        rcases hs with rfl | rfl | h
        · exact Or.inl rfl
        · exact Or.inl rfl
        · exact ih _ _ _ s h
    | false =>
      simp only [hc1] at hs
      cases hc2 : JSNum.lt mid (JSNum.ofInt wt) with
      | true =>
        simp [hc2, List.mem_cons] at hs
        rcases hs with rfl | rfl | rfl
        · exact Or.inl rfl
        · exact Or.inr (Or.inl rfl)
        · exact Or.inr (Or.inr rfl)
      | false =>
        simp [hc2, List.mem_cons] at hs
        rcases hs with rfl | rfl | h
        · exact Or.inl rfl
        · exact Or.inr (Or.inl rfl)
        · exact ih _ _ _ s h

-- Every probe recorded by the ship binary-search loop from finite integer
-- bounds satisfies `low ≤ mid ≤ high`.
theorem ship_searchLoop_probe_bounds (weights : List ℤ) (days : ℤ) :
    ∀ (fuel : ℕ) (a b : ℤ) (ans : JSNum),
      ∀ s ∈ (Ship.searchLoop weights days fuel (JSNum.num a) (JSNum.num b)
          ans).1,
        s.phase = Ship.Phase.sim_start →
        JSNum.le s.low s.mid = true ∧ JSNum.le s.mid s.high = true
  | 0, a, b, ans => by simp [Ship.searchLoop]
  | fuel + 1, a, b, ans => by
    intro s hs hphase
    cases hguard : JSNum.le (JSNum.num a) (JSNum.num b) with
    | false =>
      simp [Ship.searchLoop, hguard] at hs
    | true =>
      have hab : a ≤ b := by simpa [JSNum.le] using hguard
      rw [show JSNum.num a = JSNum.ofInt a from rfl,
        show JSNum.num b = JSNum.ofInt b from rfl] at hs
      simp only [Ship.searchLoop, hguard, if_true, JSNum.ofInt] at hs
      rw [show JSNum.midFloor (JSNum.num a) (JSNum.num b)
            = JSNum.num (a + (b - a) / 2) from rfl,
        show JSNum.sub (JSNum.num (a + (b - a) / 2)) (JSNum.num 1)
            = JSNum.num (a + (b - a) / 2 + -1) from rfl,
        show JSNum.add (JSNum.num (a + (b - a) / 2)) (JSNum.num 1)
            = JSNum.num (a + (b - a) / 2 + 1) from rfl] at hs
      split at hs
      · split at hs
        · simp only [List.mem_cons, List.mem_append, List.not_mem_nil,
            or_false] at hs
          rcases hs with ((rfl | h) | rfl) | h
          · exact midFloor_bounds hab
          · rcases ship_simLoop_phases _ _ _ _ _ _ _ _ s h with h' | h' | h'
              <;> rw [hphase] at h' <;> exact absurd h' (by decide)
          · simp at hphase
          · exact ship_searchLoop_probe_bounds weights days fuel a
              (a + (b - a) / 2 + -1) _ s h hphase
        · simp only [List.mem_cons, List.mem_append, List.not_mem_nil,
            or_false] at hs
          rcases hs with ((rfl | h) | rfl) | h
          · exact midFloor_bounds hab
          · rcases ship_simLoop_phases _ _ _ _ _ _ _ _ s h with h' | h' | h'
              <;> rw [hphase] at h' <;> exact absurd h' (by decide)
          · simp at hphase
          · exact ship_searchLoop_probe_bounds weights days fuel
              (a + (b - a) / 2 + 1) b _ s h hphase
      · simp only [List.mem_cons, List.mem_append, List.not_mem_nil,
          or_false] at hs
        rcases hs with (rfl | h) | h
        · exact midFloor_bounds hab
        · rcases ship_simLoop_phases _ _ _ _ _ _ _ _ s h with h' | h' | h'
            <;> rw [hphase] at h' <;> exact absurd h' (by decide)
        · exact ship_searchLoop_probe_bounds weights days fuel
            (a + (b - a) / 2 + 1) b _ s h hphase

-- The split-array `check` simulation records only `check_process` phases.
theorem split_checkLoop_phases (lo hi mid res : JSNum) :
    ∀ (items : List (ℕ × ℤ)) (cs ps : ℤ) (splits : List ℕ),
      ∀ s ∈ (Split.checkLoop lo hi mid res items cs ps splits).1,
        s.phase = Split.Phase.check_process
  | [], cs, ps, splits => by simp [Split.checkLoop]
  | (i, val) :: rest, cs, ps, splits => by
    intro s hs
    have ih := split_checkLoop_phases lo hi mid res rest
    simp only [Split.checkLoop] at hs
    cases hc : JSNum.lt mid (JSNum.ofInt (cs + val)) with
    | true =>
      simp [hc, List.mem_cons] at hs
      rcases hs with rfl | rfl | h
      · rfl
      · rfl
      · exact ih _ _ _ s h
    | false =>
      simp [hc, List.mem_cons] at hs
      rcases hs with rfl | rfl | h
      · rfl
      · rfl
      · exact ih _ _ _ s h

-- Every probe recorded by the split-array binary-search loop from finite
-- integer bounds satisfies `lo ≤ mid ≤ hi`.
theorem split_searchLoop_probe_bounds (arr : List ℤ) (k : ℤ) :
    ∀ (fuel : ℕ) (a b : ℤ) (res : JSNum),
      ∀ s ∈ (Split.searchLoop arr k fuel (JSNum.num a) (JSNum.num b)
          res).1,
        s.phase = Split.Phase.check_start →
        JSNum.le s.lo s.mid = true ∧ JSNum.le s.mid s.hi = true
  | 0, a, b, res => by simp [Split.searchLoop]
  | fuel + 1, a, b, res => by
    intro s hs hphase
    cases hguard : JSNum.le (JSNum.num a) (JSNum.num b) with
    | false =>
      simp [Split.searchLoop, hguard] at hs
    | true =>
      have hab : a ≤ b := by simpa [JSNum.le] using hguard
      simp only [Split.searchLoop, hguard, if_true] at hs
      rw [show JSNum.midFloor (JSNum.num a) (JSNum.num b)
            = JSNum.num (a + (b - a) / 2) from rfl,
        show JSNum.sub (JSNum.num (a + (b - a) / 2)) (JSNum.num 1)
            = JSNum.num (a + (b - a) / 2 + -1) from rfl,
        show JSNum.add (JSNum.num (a + (b - a) / 2)) (JSNum.num 1)
            = JSNum.num (a + (b - a) / 2 + 1) from rfl] at hs
      split at hs
      · simp only [List.mem_cons, List.mem_append, List.not_mem_nil,
          or_false] at hs
        rcases hs with ((rfl | h) | rfl | rfl) | h
        · exact midFloor_bounds hab
        · rw [split_checkLoop_phases _ _ _ _ _ _ _ _ s h] at hphase
          exact absurd hphase (by decide)
        · simp at hphase
        · simp at hphase
        · exact split_searchLoop_probe_bounds arr k fuel a
            (a + (b - a) / 2 + -1) _ s h hphase
      · simp only [List.mem_cons, List.mem_append, List.not_mem_nil,
          or_false] at hs
        rcases hs with ((rfl | h) | rfl | rfl) | h
        · exact midFloor_bounds hab
        · rw [split_checkLoop_phases _ _ _ _ _ _ _ _ s h] at hphase
          exact absurd hphase (by decide)
        · simp at hphase
        · simp at hphase
        · exact split_searchLoop_probe_bounds arr k fuel
            (a + (b - a) / 2 + 1) b _ s h hphase

/-- Claim C6 (amended): both binary-search-on-answer generators compute the
midpoint with flooring integer-division semantics — on finite integer
bounds, `Math.floor(low + (high - low) / 2)` equals `low + (high-low)/2`
with flooring integer division — and for every nonempty input array every
recorded probe Step satisfies `low ≤ mid ≤ high`.  (On the empty array,
which both input handlers accept, the split-array generator's probe
records `lo = -Infinity`, `hi = 0` and `mid = NaN`, where the bound fails;
the ship generator records no probe there.) -/
theorem C6_mid_bounds (weights arr : List ℤ) (days k : ℤ)
    (hw : weights ≠ []) (ha : arr ≠ []) :
    (∀ s ∈ Ship.generateSteps weights days,
      s.phase = Ship.Phase.sim_start →
      JSNum.le s.low s.mid = true ∧ JSNum.le s.mid s.high = true)
    ∧ (∀ s ∈ Split.generateSteps arr k,
      s.phase = Split.Phase.check_start →
      JSNum.le s.lo s.mid = true ∧ JSNum.le s.mid s.hi = true)
    ∧ (∀ a b : ℤ, JSNum.midFloor (JSNum.num a) (JSNum.num b)
        = JSNum.num (a + (b - a) / 2)) := by
  refine ⟨?_, ?_, fun a b => rfl⟩
  · match weights with
    | [] => exact absurd rfl hw
    | w :: l =>
      intro s hs hphase
      obtain ⟨a, hmin⟩ := minList_num w l
      obtain ⟨b, hsum⟩ := sumList_num (w :: l)
      simp only [Ship.generateSteps, hmin, hsum, List.mem_cons,
        List.mem_append, List.not_mem_nil, or_false] at hs
      rcases hs with (rfl | h) | rfl
      · simp at hphase
      · exact ship_searchLoop_probe_bounds (w :: l) days _ a b _ s h hphase
      · simp at hphase
  · match arr with
    | [] => exact absurd rfl ha
    | w :: l =>
      intro s hs hphase
      obtain ⟨a, hmax⟩ := maxList_num w l
      obtain ⟨b, hsum⟩ := sumList_num (w :: l)
      simp only [Split.generateSteps, hmax, hsum, List.mem_cons,
        List.mem_append, List.not_mem_nil, or_false] at hs
      rcases hs with (rfl | h) | rfl
      · simp at hphase
      · exact split_searchLoop_probe_bounds (w :: l) k _ a b _ s h hphase
      · simp at hphase

/-- Witness for C6 at the nonempty inputs `[1,2]` (ship, `days = 1`) and
`[3]` (split-array, `k = 1`). -/
theorem C6_mid_bounds_witness :
    ([1, 2] : List ℤ) ≠ []
    ∧ ∀ s ∈ Ship.generateSteps [1, 2] 1,
        s.phase = Ship.Phase.sim_start →
        JSNum.le s.low s.mid = true ∧ JSNum.le s.mid s.high = true :=
  ⟨by decide, (C6_mid_bounds [1, 2] [3] 1 1 (by decide) (by decide)).1⟩
